import Mathlib

/-!
Formal model of the Burrito Shack marketing dashboard's computation core:
the global record filter (rowsFiltered), the aggregation engine (derive)
with its totals, byDate, channelArr and byMarket outputs, the insight
engine (buildInsights) with its monthly buckets, MoM/YoY comparators and
narrative values, and the DeltaCard percentage convention.

Numeric row fields and derived metrics are modelled as rationals; calendar
dates as (year, zero-based month, day) triples ordered lexicographically,
which agrees with timestamp order on calendar dates; month buckets by the
linearised key year * 12 + month, on which the source's
addMonths(month, -12) is subtraction of 12. Narrative strings are
represented by the numeric values they embed. All functions are total;
the zero-denominator guards of the source are explicit conditionals.
-/

namespace BurritoShack

/-- A calendar date as stored on a parsed record: year, zero-based month
(mirroring the host platform's month indexing) and day of month. -/
structure Date where
  year : Int
  month : Int
  day : Int
deriving DecidableEq, Repr

/-- Chronological order on dates (lexicographic on year, month, day),
matching numeric comparison of the underlying timestamps for calendar dates. -/
def dle (a b : Date) : Prop :=
  a.year < b.year ∨
    (a.year = b.year ∧ (a.month < b.month ∨ (a.month = b.month ∧ a.day ≤ b.day)))

instance : DecidableRel dle := fun a b => by
  unfold dle
  infer_instance

instance : IsTotal Date dle := by
  constructor
  intro a b
  unfold dle
  omega

instance : IsTrans Date dle := by
  constructor
  intro a b c hab hbc
  unfold dle at hab hbc ⊢
  omega

/-- The closed set of advertising channels. -/
inductive Channel where
  | social
  | search
  | display
deriving DecidableEq, Repr, Inhabited

/-- One parsed row of the dataset (the record produced by parseRow). -/
structure Record where
  date : Date
  location_id : String
  city : String
  state : String
  region : String
  sessions : Rat
  page_views : Rat
  bounce_rate : Rat
  conversion_rate : Rat
  online_orders : Rat
  avg_order_value : Rat
  revenue : Rat
  ad_spend_social : Rat
  ad_spend_search : Rat
  ad_spend_display : Rat
  impressions_social : Rat
  impressions_search : Rat
  impressions_display : Rat
  clicks_social : Rat
  clicks_search : Rat
  clicks_display : Rat
deriving DecidableEq, Repr

/-- The sum helper: d3.sum of a field over a list of items. -/
def sumBy {α : Type} (l : List α) (f : α → Rat) : Rat :=
  (l.map f).sum

/-- The distinct keys of a list, in first-occurrence order, as produced by
the grouping utility (d3.group / d3.rollups key enumeration). -/
def firstKeys {α κ : Type} [DecidableEq κ] (key : α → κ) : List α → List κ
  | [] => []
  | a :: rest => key a :: (firstKeys key rest).filter (fun k => decide (k ≠ key a))

/-- Grouping of a list by a key (d3.group / d3.rollups): one entry per
distinct key in first-occurrence order, paired with the sublist of items
having that key, in input order. -/
def groupBy {α κ : Type} [DecidableEq κ] (key : α → κ) (l : List α) : List (κ × List α) :=
  (firstKeys key l).map (fun k => (k, l.filter (fun a => decide (key a = k))))

theorem mem_firstKeys {α κ : Type} [DecidableEq κ] (key : α → κ) (l : List α) (k : κ) :
    k ∈ firstKeys key l ↔ ∃ a ∈ l, key a = k := by
  induction l with
  | nil => simp [firstKeys]
  | cons a rest ih =>
    by_cases h : k = key a
    · subst h
      constructor
      · intro _
        exact ⟨a, List.mem_cons_self a rest, rfl⟩
      · intro _
        exact List.mem_cons_self _ _
    · constructor
      · intro hmem
        rcases List.mem_cons.mp hmem with heq | hmem'
        · exact absurd heq h
        · rcases ih.mp (List.mem_filter.mp hmem').1 with ⟨b, hb, hk⟩
          exact ⟨b, List.mem_cons_of_mem a hb, hk⟩
      · rintro ⟨b, hb, hk⟩
        rcases List.mem_cons.mp hb with heq | hb'
        · exact absurd (heq ▸ hk).symm h
        · exact List.mem_cons_of_mem _ (List.mem_filter.mpr ⟨ih.mpr ⟨b, hb', hk⟩, by simp [h]⟩)

theorem firstKeys_nodup {α κ : Type} [DecidableEq κ] (key : α → κ) (l : List α) :
    (firstKeys key l).Nodup := by
  induction l with
  | nil => simp [firstKeys]
  | cons a rest ih =>
    refine List.nodup_cons.mpr ⟨?_, ih.filter _⟩
    intro hmem
    have := (List.mem_filter.mp hmem).2
    simp at this

/-- The market grouping key: the string "city, state". -/
def marketKey (r : Record) : String :=
  r.city ++ ", " ++ r.state

/-- Spend selection under an optional channel focus: the focused channel's
spend when a focus is set, otherwise the sum of the three channel spends. -/
def channelSpendOf (cf : Option Channel) (sS sSe sD : Rat) : Rat :=
  match cf with
  | some Channel.social => sS
  | some Channel.search => sSe
  | some Channel.display => sD
  | none => sS + sSe + sD

/-- The focus-selected spend summed over a list of records. -/
def dateSpend (cf : Option Channel) (v : List Record) : Rat :=
  channelSpendOf cf (sumBy v (·.ad_spend_social)) (sumBy v (·.ad_spend_search))
    (sumBy v (·.ad_spend_display))

/-- One entry of the byDate series of derive. -/
structure DateEntry where
  date : Date
  revenue : Rat
  roas : Rat
  orders : Rat
deriving DecidableEq, Repr

/-- Ascending-by-date comparison on byDate entries. -/
def dleEntry (a b : DateEntry) : Prop :=
  dle a.date b.date

instance : DecidableRel dleEntry := fun a b => by
  unfold dleEntry
  infer_instance

instance : IsTotal DateEntry dleEntry :=
  ⟨fun a b => IsTotal.total (r := dle) a.date b.date⟩

instance : IsTrans DateEntry dleEntry :=
  ⟨fun a b c hab hbc => IsTrans.trans (r := dle) a.date b.date c.date hab hbc⟩

/-- The byDate entry built from one date group of derive. -/
def mkDateEntry (cf : Option Channel) (g : Date × List Record) : DateEntry :=
  let v := g.2
  let revenue := sumBy v (·.revenue)
  let spend := dateSpend cf v
  let orders := sumBy v (·.online_orders)
  { date := g.1
    revenue := revenue
    roas := if spend = 0 then 0 else revenue / spend
    orders := orders }

/-- The byDate series of derive: per-date sums, sorted ascending by date. -/
def byDateOf (rows : List Record) (cf : Option Channel) : List DateEntry :=
  List.insertionSort dleEntry ((groupBy (fun r => r.date) rows).map (mkDateEntry cf))

/-- One entry of the channelArr output of derive. -/
structure ChannelEntry where
  channel : Channel
  spend : Rat
  clicks : Rat
  impressions : Rat
  cpc : Rat
  ctr : Rat
  roas : Rat
deriving DecidableEq, Repr

/-- One channelArr entry: per-channel sums with CPC, CTR and ROAS (the
latter against overall revenue), each with the zero-denominator guard. -/
def mkChannelEntry (totalRevenue : Rat) (ch : Channel) (spend clicks impressions : Rat) :
    ChannelEntry :=
  { channel := ch
    spend := spend
    clicks := clicks
    impressions := impressions
    cpc := if clicks = 0 then 0 else spend / clicks
    ctr := if impressions = 0 then 0 else clicks / impressions
    roas := if spend = 0 then 0 else totalRevenue / spend }

/-- The channelArr output of derive on a nonempty record list: the three
fixed channels, ignoring channel focus. -/
def channelArrOf (rows : List Record) : List ChannelEntry :=
  let totalRevenue := sumBy rows (·.revenue)
  [ mkChannelEntry totalRevenue Channel.social (sumBy rows (·.ad_spend_social))
      (sumBy rows (·.clicks_social)) (sumBy rows (·.impressions_social)),
    mkChannelEntry totalRevenue Channel.search (sumBy rows (·.ad_spend_search))
      (sumBy rows (·.clicks_search)) (sumBy rows (·.impressions_search)),
    mkChannelEntry totalRevenue Channel.display (sumBy rows (·.ad_spend_display))
      (sumBy rows (·.clicks_display)) (sumBy rows (·.impressions_display)) ]

/-- One entry of the byMarket output of derive. -/
structure MarketEntry where
  market : String
  city : String
  state : String
  revenue : Rat
  orders : Rat
  sessions : Rat
  spend : Rat
  roas : Rat
  cvr : Rat
deriving DecidableEq, Repr

/-- Descending-by-revenue comparison on byMarket entries. -/
def marketGE (a b : MarketEntry) : Prop :=
  b.revenue ≤ a.revenue

instance : DecidableRel marketGE := fun a b => by
  unfold marketGE
  infer_instance

instance : IsTotal MarketEntry marketGE :=
  ⟨fun a b => le_total b.revenue a.revenue⟩

instance : IsTrans MarketEntry marketGE :=
  ⟨fun _ _ _ hab hbc => le_trans hbc hab⟩

/-- The byMarket entry built from one market group of derive. -/
def mkMarketEntry (cf : Option Channel) (g : String × List Record) : MarketEntry :=
  let v := g.2
  let spend := dateSpend cf v
  let revenue := sumBy v (·.revenue)
  let orders := sumBy v (·.online_orders)
  let sessions := sumBy v (·.sessions)
  { market := g.1
    city := match v with | [] => "" | r :: _ => r.city
    state := match v with | [] => "" | r :: _ => r.state
    revenue := revenue
    orders := orders
    sessions := sessions
    spend := spend
    roas := if spend = 0 then 0 else revenue / spend
    cvr := if sessions = 0 then 0 else orders / sessions }

/-- The byMarket output of derive: market groups sorted descending by revenue. -/
def byMarketOf (rows : List Record) (cf : Option Channel) : List MarketEntry :=
  List.insertionSort marketGE ((groupBy marketKey rows).map (mkMarketEntry cf))

/-- The result object of derive. -/
structure DeriveResult where
  totalRevenue : Rat
  totalOrders : Rat
  totalSessions : Rat
  aov : Rat
  cvr : Rat
  roas : Rat
  byDate : List DateEntry
  channelArr : List ChannelEntry
  byMarket : List MarketEntry
deriving DecidableEq, Repr

/-- The early-return value derive produces for an empty record list. -/
def emptyDerive : DeriveResult :=
  { totalRevenue := 0, totalOrders := 0, totalSessions := 0, aov := 0, cvr := 0, roas := 0,
    byDate := [], channelArr := [], byMarket := [] }

/-- The sum of the three channel-spend columns over all records. -/
def spendAll (rows : List Record) : Rat :=
  sumBy rows (·.ad_spend_social) + sumBy rows (·.ad_spend_search) +
    sumBy rows (·.ad_spend_display)

/-- The aggregation engine (derive): totals, byDate series, channelArr and
byMarket breakdowns, with the optional channel focus affecting only the
spend selection of byDate and byMarket. -/
def derive (rows : List Record) (channelFocus : Option Channel) : DeriveResult :=
  if rows.isEmpty then emptyDerive
  else
    let totalRevenue := sumBy rows (·.revenue)
    let totalOrders := sumBy rows (·.online_orders)
    let totalSessions := sumBy rows (·.sessions)
    let spend_total := spendAll rows
    { totalRevenue := totalRevenue
      totalOrders := totalOrders
      totalSessions := totalSessions
      aov := if totalOrders = 0 then 0 else totalRevenue / totalOrders
      cvr := if totalSessions = 0 then 0 else totalOrders / totalSessions
      roas := if spend_total = 0 then 0 else totalRevenue / spend_total
      byDate := byDateOf rows channelFocus
      channelArr := channelArrOf rows
      byMarket := byMarketOf rows channelFocus }

/-- The month bucket key of a date: the linearised (year, month) pair.
monthKey in the source returns the timestamp of the first of the month;
distinct (year, month) pairs map to distinct, identically ordered keys,
and the 12-months-earlier month used by the YoY lookup is key - 12. -/
def monthKey (d : Date) : Int :=
  d.year * 12 + d.month

/-- The per-month rollup value of buildInsights. -/
structure MonthStats where
  revenue : Rat
  orders : Rat
  sessions : Rat
  spend : Rat
  cvr : Rat
  roas : Rat
deriving DecidableEq, Repr, Inhabited

/-- The all-zero month value, used when the year-ago bucket is absent. -/
def zeroStats : MonthStats :=
  { revenue := 0, orders := 0, sessions := 0, spend := 0, cvr := 0, roas := 0 }

/-- The monthly rollup of one month bucket in buildInsights. -/
def statsOf (cf : Option Channel) (v : List Record) : MonthStats :=
  let revenue := sumBy v (·.revenue)
  let orders := sumBy v (·.online_orders)
  let sessions := sumBy v (·.sessions)
  let spend := dateSpend cf v
  { revenue := revenue
    orders := orders
    sessions := sessions
    spend := spend
    cvr := if sessions = 0 then 0 else orders / sessions
    roas := if spend = 0 then 0 else revenue / spend }

/-- Ascending order on month-keyed pairs. -/
def keyLE {β : Type} (a b : Int × β) : Prop :=
  a.1 ≤ b.1

instance {β : Type} : DecidableRel (keyLE (β := β)) := fun a b => by
  unfold keyLE
  infer_instance

instance {β : Type} : IsTotal (Int × β) keyLE :=
  ⟨fun a b => Int.le_total a.1 b.1⟩

instance {β : Type} : IsTrans (Int × β) keyLE :=
  ⟨fun _ _ _ hab hbc => le_trans hab hbc⟩

/-- The monthly bucket series of buildInsights, sorted ascending by month. -/
def monthlyOf (rows : List Record) (cf : Option Channel) : List (Int × MonthStats) :=
  List.insertionSort keyLE
    ((groupBy (fun r => monthKey r.date) rows).map (fun g => (g.1, statsOf cf g.2)))

/-- The per-month rollup value of one channel's own series in buildInsights. -/
structure ChanMonth where
  revenue : Rat
  roas : Rat
  cvr : Rat
deriving DecidableEq, Repr, Inhabited

/-- The all-zero channel month, standing in for the absent-element default. -/
def zeroChan : ChanMonth :=
  { revenue := 0, roas := 0, cvr := 0 }

/-- One channel's own monthly rollup (always that channel's spend, never
the global channel focus). -/
def chanStatsOf (ch : Channel) (v : List Record) : ChanMonth :=
  let rev := sumBy v (·.revenue)
  let spend :=
    match ch with
    | Channel.social => sumBy v (·.ad_spend_social)
    | Channel.search => sumBy v (·.ad_spend_search)
    | Channel.display => sumBy v (·.ad_spend_display)
  let orders := sumBy v (·.online_orders)
  let sessions := sumBy v (·.sessions)
  { revenue := rev
    roas := if spend = 0 then 0 else rev / spend
    cvr := if sessions = 0 then 0 else orders / sessions }

/-- One channel's monthly series, sorted ascending by month. -/
def chanSeriesOf (rows : List Record) (ch : Channel) : List (Int × ChanMonth) :=
  List.insertionSort keyLE
    ((groupBy (fun r => monthKey r.date) rows).map (fun g => (g.1, chanStatsOf ch g.2)))

/-- The per-channel MoM deltas computed by buildInsights. -/
structure ChanDelta where
  ch : Channel
  dRoas : Rat
  dRev : Rat
  dCvr : Rat
deriving DecidableEq, Repr, Inhabited

/-- The MoM deltas of one channel: last versus second-to-last month of the
channel's own series, each delta using the shared percentage convention. -/
def chanDeltaOf (rows : List Record) (ch : Channel) : ChanDelta :=
  let series := chanSeriesOf rows ch
  let c := (series.getLastD (0, zeroChan)).2
  let p := (series.dropLast.getLastD (0, zeroChan)).2
  { ch := ch
    dRoas := if p.roas = 0 then (if c.roas = 0 then 0 else 1) else (c.roas - p.roas) / p.roas
    dRev := if p.revenue = 0 then (if c.revenue = 0 then 0 else 1)
      else (c.revenue - p.revenue) / p.revenue
    dCvr := if p.cvr = 0 then (if c.cvr = 0 then 0 else 1) else (c.cvr - p.cvr) / p.cvr }

/-- The channel whose MoM ROAS delta has the largest absolute magnitude
(ties keep the earlier channel, as in the source reduce). -/
def topRoasOf (rows : List Record) : ChanDelta :=
  let channelStats :=
    [chanDeltaOf rows Channel.social, chanDeltaOf rows Channel.search,
      chanDeltaOf rows Channel.display]
  channelStats.foldl (fun a b => if |a.dRoas| < |b.dRoas| then b else a)
    (chanDeltaOf rows Channel.social)

/-- Every market's monthly revenue series, sorted ascending by month. -/
def marketSeriesOf (rows : List Record) : List (String × List (Int × Rat)) :=
  (groupBy marketKey rows).map (fun g =>
    (g.1, List.insertionSort keyLE
      ((groupBy (fun r => monthKey r.date) g.2).map (fun m => (m.1, sumBy m.2 (·.revenue))))))

/-- Each market's MoM revenue growth: last versus second-to-last month of
the market's own series, with the shared percentage convention. -/
def marketGrowthOf (rows : List Record) : List (String × Rat) :=
  (marketSeriesOf rows).map (fun g =>
    let c := (g.2.getLastD (0, 0)).2
    let p := (g.2.dropLast.getLastD (0, 0)).2
    (g.1, if p = 0 then (if c = 0 then 0 else 1) else (c - p) / p))

/-- The market with the single highest (signed) MoM revenue growth, or none
when there are no markets at all (the 'Not enough market data' branch). -/
def bestMarketOf (rows : List Record) : Option (String × Rat) :=
  match marketGrowthOf rows with
  | [] => none
  | g0 :: rest => some ((g0 :: rest).foldl (fun a b => if a.2 < b.2 then b else a) g0)

/-- The four headline metrics of one month as surfaced on the cards. -/
structure KpiSet where
  revenue : Rat
  orders : Rat
  roas : Rat
  cvr : Rat
deriving DecidableEq, Repr, Inhabited

/-- The insight payload of buildInsights. Month labels are represented by
their month keys; narrative strings are represented by the numeric values
they embed (top channel and its ROAS delta, best market and its growth,
and the CVR change of the watchMetric sentence). -/
structure InsightPayload where
  currMonth : Int
  prevMonth : Int
  yoyMonth : Int
  curr : KpiSet
  prev : KpiSet
  yoy : KpiSet
  topChannel : Channel
  topChannelDelta : Rat
  bestMarket : Option (String × Rat)
  watchMetricChange : Rat
deriving DecidableEq, Repr, Inhabited

/-- The current bucket of buildInsights: the last entry of the sorted
monthly series (the default is never reached once two buckets exist). -/
def currOf (rows : List Record) (cf : Option Channel) : Int × MonthStats :=
  (monthlyOf rows cf).getLastD (0, zeroStats)

/-- The previous bucket of buildInsights: the second-to-last entry of the
sorted monthly series. -/
def prevOf (rows : List Record) (cf : Option Channel) : Int × MonthStats :=
  (monthlyOf rows cf).dropLast.getLastD (0, zeroStats)

/-- The year-ago bucket of buildInsights: the bucket whose key is exactly
12 months before the current bucket's key, or all zeros when absent. -/
def yoyOf (rows : List Record) (cf : Option Channel) : MonthStats :=
  (((monthlyOf rows cf).find? (fun m => decide (m.1 = (currOf rows cf).1 - 12))).getD
    (0, zeroStats)).2

/-- The insight payload buildInsights returns once at least two monthly
buckets exist. -/
def payloadOf (rows : List Record) (cf : Option Channel) : InsightPayload :=
  let curr := currOf rows cf
  let prev := prevOf rows cf
  let yoy := yoyOf rows cf
  let top := topRoasOf rows
  { currMonth := curr.1
    prevMonth := prev.1
    yoyMonth := curr.1 - 12
    curr := { revenue := curr.2.revenue, orders := curr.2.orders,
              roas := curr.2.roas, cvr := curr.2.cvr }
    prev := { revenue := prev.2.revenue, orders := prev.2.orders,
              roas := prev.2.roas, cvr := prev.2.cvr }
    yoy := { revenue := yoy.revenue, orders := yoy.orders,
             roas := yoy.roas, cvr := yoy.cvr }
    topChannel := top.ch
    topChannelDelta := top.dRoas
    bestMarket := bestMarketOf rows
    watchMetricChange :=
      (curr.2.cvr - prev.2.cvr) / (if prev.2.cvr = 0 then 1 else prev.2.cvr) }

/-- The insight engine (buildInsights): monthly buckets, MoM and YoY
comparators and narrative values; none when fewer than two monthly buckets
exist. The function is total, so the insufficient-data case is signalled
only by the none result, never by a thrown error. -/
def buildInsights (rows : List Record) (cf : Option Channel) : Option InsightPayload :=
  if rows.isEmpty then none
  else if (monthlyOf rows cf).length < 2 then none
  else some (payloadOf rows cf)

/-- The percentage delta shown on a DeltaCard for a (current, previous)
metric pair. -/
def deltaCardPct (curr prev : Rat) : Rat :=
  if prev = 0 then (if curr = 0 then 0 else 1) else (curr - prev) / prev

/-- The eight percentage deltas the insights panel displays: the four MoM
cards (current versus previous month) and the four YoY cards (current
versus year-ago values). -/
structure CardDeltas where
  momRevenue : Rat
  momOrders : Rat
  momRoas : Rat
  momCvr : Rat
  yoyRevenue : Rat
  yoyOrders : Rat
  yoyRoas : Rat
  yoyCvr : Rat
deriving DecidableEq, Repr

/-- The deltas computed by the insights panel from a payload, one DeltaCard
per metric and comparison. -/
def insightsPanelDeltas (p : InsightPayload) : CardDeltas :=
  { momRevenue := deltaCardPct p.curr.revenue p.prev.revenue
    momOrders := deltaCardPct p.curr.orders p.prev.orders
    momRoas := deltaCardPct p.curr.roas p.prev.roas
    momCvr := deltaCardPct p.curr.cvr p.prev.cvr
    yoyRevenue := deltaCardPct p.curr.revenue p.yoy.revenue
    yoyOrders := deltaCardPct p.curr.orders p.yoy.orders
    yoyRoas := deltaCardPct p.curr.roas p.yoy.roas
    yoyCvr := deltaCardPct p.curr.cvr p.yoy.cvr }

/-- The global filter (rowsFiltered): inclusive date bounds, either bound
optional, and an exact market-key match unless the sentinel "All" is
selected. The channel selection takes no part in record inclusion. -/
def rowsFiltered (rows : List Record) (startDate endDate : Option Date)
    (selectedMarket : String) : List Record :=
  rows.filter (fun r =>
    (match startDate with
      | none => true
      | some s => decide (dle s r.date)) &&
    (match endDate with
      | none => true
      | some e => decide (dle r.date e)) &&
    (if selectedMarket = "All" then true else decide (marketKey r = selectedMarket)))

/-- A record with the given date, market and core metrics and all other
numeric fields zero, used to build concrete inputs. -/
def mkRec (d : Date) (city state : String) (sessions orders revenue sS sSe sD : Rat) :
    Record :=
  { date := d, location_id := "L1", city := city, state := state, region := "R"
    sessions := sessions, page_views := 0, bounce_rate := 0, conversion_rate := 0
    online_orders := orders, avg_order_value := 0, revenue := revenue
    ad_spend_social := sS, ad_spend_search := sSe, ad_spend_display := sD
    impressions_social := 0, impressions_search := 0, impressions_display := 0
    clicks_social := 0, clicks_search := 0, clicks_display := 0 }



/-! Helper lemmas about sums over groupings. -/

theorem sum_map_add {α : Type} (l : List α) (f g : α → Rat) :
    (l.map (fun x => f x + g x)).sum = (l.map f).sum + (l.map g).sum := by
  induction l with
  | nil => simp
  | cons a rest ih =>
    simp only [List.map_cons, List.sum_cons, ih]
    ring

theorem sum_if_single {κ : Type} [DecidableEq κ] (ks : List κ) (hnd : ks.Nodup) (x : κ)
    (hx : x ∈ ks) (c : Rat) :
    (ks.map (fun k => if x = k then c else 0)).sum = c := by
  induction ks with
  | nil => cases hx
  | cons k ks ih =>
    rcases List.nodup_cons.mp hnd with ⟨hk, hnd'⟩
    rcases List.mem_cons.mp hx with rfl | hx'
    · simp only [List.map_cons, List.sum_cons, if_pos rfl]
      have hz : (ks.map (fun k' => if x = k' then c else 0)).sum = 0 := by
        apply List.sum_eq_zero
        intro y hy
        rcases List.mem_map.mp hy with ⟨k', hk', rfl⟩
        rw [if_neg]
        intro heq
        exact hk (by rwa [heq])
      simp [hz]
    · have hxk : x ≠ k := fun heq => hk (by rwa [heq] at hx')
      simp only [List.map_cons, List.sum_cons, if_neg hxk, ih hnd' hx', zero_add]

theorem sum_filter_partition {α κ : Type} [DecidableEq κ] (key : α → κ) (f : α → Rat)
    (l : List α) (ks : List κ) (hnd : ks.Nodup) (hcov : ∀ a ∈ l, key a ∈ ks) :
    (ks.map (fun k => sumBy (l.filter (fun a => decide (key a = k))) f)).sum = sumBy l f := by
  induction l with
  | nil =>
    have h0 : sumBy ([] : List α) f = 0 := by simp [sumBy]
    rw [h0]
    apply List.sum_eq_zero
    intro y hy
    rcases List.mem_map.mp hy with ⟨k, _, rfl⟩
    simp [sumBy]
  | cons a rest ih =>
    have hka : key a ∈ ks := hcov a (List.mem_cons_self a rest)
    have hcov' : ∀ b ∈ rest, key b ∈ ks := fun b hb => hcov b (List.mem_cons_of_mem a hb)
    have hstep : (ks.map (fun k => sumBy (List.filter (fun x => decide (key x = k)) (a :: rest)) f)) =
        (ks.map (fun k => (if key a = k then f a else 0) +
          sumBy (List.filter (fun x => decide (key x = k)) rest) f)) := by
      apply List.map_congr_left
      intro k _
      by_cases h : key a = k
      · simp [List.filter_cons, h, sumBy]
      · simp [List.filter_cons, h, sumBy]
    rw [hstep, sum_map_add, sum_if_single ks hnd (key a) hka (f a), ih hcov']
    simp [sumBy]

theorem sum_map_groupBy {α κ : Type} [DecidableEq κ] (key : α → κ) (f : α → Rat)
    (l : List α) :
    ((groupBy key l).map (fun g => sumBy g.2 f)).sum = sumBy l f := by
  rw [groupBy, List.map_map]
  exact sum_filter_partition key f l (firstKeys key l) (firstKeys_nodup key l)
    (fun a ha => (mem_firstKeys key l (key a)).mpr ⟨a, ha, rfl⟩)

/-! Helper lemmas about the outputs of derive. -/

theorem derive_totalRevenue (rows : List Record) (cf : Option Channel) :
    (derive rows cf).totalRevenue = sumBy rows (·.revenue) := by
  cases rows with
  | nil => simp [derive, emptyDerive, sumBy]
  | cons r rs => simp [derive]

theorem derive_totalOrders (rows : List Record) (cf : Option Channel) :
    (derive rows cf).totalOrders = sumBy rows (·.online_orders) := by
  cases rows with
  | nil => simp [derive, emptyDerive, sumBy]
  | cons r rs => simp [derive]

theorem derive_totalSessions (rows : List Record) (cf : Option Channel) :
    (derive rows cf).totalSessions = sumBy rows (·.sessions) := by
  cases rows with
  | nil => simp [derive, emptyDerive, sumBy]
  | cons r rs => simp [derive]

theorem derive_aov (rows : List Record) (cf : Option Channel) :
    (derive rows cf).aov =
      (if sumBy rows (·.online_orders) = 0 then 0
        else sumBy rows (·.revenue) / sumBy rows (·.online_orders)) := by
  cases rows with
  | nil => simp [derive, emptyDerive, sumBy]
  | cons r rs => simp [derive]

theorem derive_cvr (rows : List Record) (cf : Option Channel) :
    (derive rows cf).cvr =
      (if sumBy rows (·.sessions) = 0 then 0
        else sumBy rows (·.online_orders) / sumBy rows (·.sessions)) := by
  cases rows with
  | nil => simp [derive, emptyDerive, sumBy]
  | cons r rs => simp [derive]

theorem derive_roas (rows : List Record) (cf : Option Channel) :
    (derive rows cf).roas =
      (if spendAll rows = 0 then 0 else sumBy rows (·.revenue) / spendAll rows) := by
  cases rows with
  | nil => simp [derive, emptyDerive, sumBy, spendAll]
  | cons r rs => simp [derive]

theorem derive_byDate (rows : List Record) (cf : Option Channel) :
    (derive rows cf).byDate = byDateOf rows cf := by
  cases rows with
  | nil => simp [derive, emptyDerive, byDateOf, groupBy, firstKeys]
  | cons r rs => simp [derive]

theorem derive_byMarket (rows : List Record) (cf : Option Channel) :
    (derive rows cf).byMarket = byMarketOf rows cf := by
  cases rows with
  | nil => simp [derive, emptyDerive, byMarketOf, groupBy, firstKeys]
  | cons r rs => simp [derive]

theorem derive_channelArr_nil (cf : Option Channel) :
    (derive [] cf).channelArr = [] := by
  simp [derive, emptyDerive]

theorem derive_channelArr_of_ne (rows : List Record) (cf : Option Channel)
    (h : rows ≠ []) : (derive rows cf).channelArr = channelArrOf rows := by
  cases rows with
  | nil => exact absurd rfl h
  | cons r rs => simp [derive]

/-! Membership characterisations of the grouped outputs. -/

theorem mem_byDateOf (rows : List Record) (cf : Option Channel) (e : DateEntry)
    (he : e ∈ byDateOf rows cf) :
    ∃ k, k ∈ firstKeys (fun r => r.date) rows ∧
      e = mkDateEntry cf (k, rows.filter (fun r => decide (r.date = k))) := by
  rw [byDateOf] at he
  have he' := (List.perm_insertionSort dleEntry _).mem_iff.mp he
  rcases List.mem_map.mp he' with ⟨g, hg, rfl⟩
  rcases List.mem_map.mp hg with ⟨k, hk, rfl⟩
  exact ⟨k, hk, rfl⟩

theorem byDateOf_mem_of_key (rows : List Record) (cf : Option Channel) (k : Date)
    (hk : k ∈ firstKeys (fun r => r.date) rows) :
    mkDateEntry cf (k, rows.filter (fun r => decide (r.date = k))) ∈ byDateOf rows cf := by
  rw [byDateOf]
  apply (List.perm_insertionSort dleEntry _).mem_iff.mpr
  exact List.mem_map.mpr ⟨(k, rows.filter (fun r => decide (r.date = k))),
    List.mem_map.mpr ⟨k, hk, rfl⟩, rfl⟩

theorem mem_byMarketOf (rows : List Record) (cf : Option Channel) (e : MarketEntry)
    (he : e ∈ byMarketOf rows cf) :
    ∃ k, k ∈ firstKeys marketKey rows ∧
      e = mkMarketEntry cf (k, rows.filter (fun r => decide (marketKey r = k))) := by
  rw [byMarketOf] at he
  have he' := (List.perm_insertionSort marketGE _).mem_iff.mp he
  rcases List.mem_map.mp he' with ⟨g, hg, rfl⟩
  rcases List.mem_map.mp hg with ⟨k, hk, rfl⟩
  exact ⟨k, hk, rfl⟩

theorem mem_monthlyOf (rows : List Record) (cf : Option Channel) (b : Int × MonthStats)
    (hb : b ∈ monthlyOf rows cf) :
    ∃ k, k ∈ firstKeys (fun r => monthKey r.date) rows ∧
      b = (k, statsOf cf (rows.filter (fun r => decide (monthKey r.date = k)))) := by
  rw [monthlyOf] at hb
  have hb' := (List.perm_insertionSort keyLE _).mem_iff.mp hb
  rcases List.mem_map.mp hb' with ⟨g, hg, rfl⟩
  rcases List.mem_map.mp hg with ⟨k, hk, rfl⟩
  exact ⟨k, hk, rfl⟩

theorem monthlyOf_length (rows : List Record) (cf : Option Channel) :
    (monthlyOf rows cf).length = (firstKeys (fun r => monthKey r.date) rows).length := by
  rw [monthlyOf, (List.perm_insertionSort keyLE _).length_eq, List.length_map, groupBy,
    List.length_map]

theorem monthlyOf_keys_nodup (rows : List Record) (cf : Option Channel) :
    ((monthlyOf rows cf).map Prod.fst).Nodup := by
  have hperm : List.Perm ((monthlyOf rows cf).map Prod.fst)
      (((groupBy (fun r => monthKey r.date) rows).map
        (fun g => (g.1, statsOf cf g.2))).map Prod.fst) :=
    (List.perm_insertionSort keyLE _).map Prod.fst
  rw [hperm.nodup_iff, groupBy, List.map_map, List.map_map]
  have hid : ((Prod.fst ∘ fun g : Int × List Record => (g.1, statsOf cf g.2)) ∘
      fun k => (k, rows.filter (fun a => decide (monthKey a.date = k)))) = id := by
    funext k
    rfl
  rw [hid, List.map_id]
  exact firstKeys_nodup _ rows

theorem monthlyOf_key_inj (rows : List Record) (cf : Option Channel)
    (b b' : Int × MonthStats) (hb : b ∈ monthlyOf rows cf) (hb' : b' ∈ monthlyOf rows cf)
    (hk : b.1 = b'.1) : b = b' :=
  List.inj_on_of_nodup_map (monthlyOf_keys_nodup rows cf) hb hb' hk

/-! Zero-denominator facts about single entries. -/

theorem mkChannelEntry_guards (tr : Rat) (ch : Channel) (s cl im : Rat) :
    ((mkChannelEntry tr ch s cl im).clicks = 0 → (mkChannelEntry tr ch s cl im).cpc = 0) ∧
    ((mkChannelEntry tr ch s cl im).impressions = 0 → (mkChannelEntry tr ch s cl im).ctr = 0) ∧
    ((mkChannelEntry tr ch s cl im).spend = 0 → (mkChannelEntry tr ch s cl im).roas = 0) := by
  refine ⟨?_, ?_, ?_⟩ <;> intro h <;> simp [mkChannelEntry] at h ⊢ <;> simp [h]

theorem mkMarketEntry_guards (cf : Option Channel) (g : String × List Record) :
    ((mkMarketEntry cf g).spend = 0 → (mkMarketEntry cf g).roas = 0) ∧
    ((mkMarketEntry cf g).sessions = 0 → (mkMarketEntry cf g).cvr = 0) := by
  constructor <;> intro h <;> simp [mkMarketEntry] at h ⊢ <;> simp [h]

theorem statsOf_guards (cf : Option Channel) (v : List Record) :
    ((statsOf cf v).sessions = 0 → (statsOf cf v).cvr = 0) ∧
    ((statsOf cf v).spend = 0 → (statsOf cf v).roas = 0) := by
  constructor <;> intro h <;> simp [statsOf] at h ⊢ <;> simp [h]

/-! Concrete sample inputs used by the witnesses: the spec's end-to-end
scenario (two months of one market) and some degenerate variants. -/

/-- January 2024 sample record of the end-to-end scenario. -/
def recJan : Record :=
  mkRec ⟨2024, 0, 1⟩ "Austin" "TX" 500 20 1000 100 0 0

/-- February 2024 sample record of the end-to-end scenario. -/
def recFeb : Record :=
  mkRec ⟨2024, 1, 1⟩ "Austin" "TX" 600 25 1500 150 0 0

/-! The claims. -/

/-- C1 counterexample: on the empty record list derive's early return
produces an empty channelArr, not three zero-valued channel entries, so
the byChannel output does not contain exactly 3 entries on every input. -/
theorem claim1_counterexample :
    (derive ([] : List Record) none).channelArr.length ≠ 3 := by
  simp [derive, emptyDerive]

/-- C1 (amended): on every nonempty record list, derive's channelArr has
exactly 3 entries, one per channel in the fixed order social, search,
display (with summed, possibly zero, metrics); on the empty record list
derive's early return instead yields an empty channelArr. -/
theorem claim1_channelArr_three (rows : List Record) (cf : Option Channel) :
    (rows ≠ [] →
      (derive rows cf).channelArr.length = 3 ∧
      (derive rows cf).channelArr.map (·.channel) =
        [Channel.social, Channel.search, Channel.display]) ∧
    (rows = [] → (derive rows cf).channelArr = []) := by
  constructor
  · intro h
    rw [derive_channelArr_of_ne rows cf h]
    exact ⟨rfl, rfl⟩
  · rintro rfl
    exact derive_channelArr_nil cf

/-- C1 witness: a concrete nonempty input on which the amended claim gives
the three-entry channelArr. -/
theorem claim1_witness :
    ([recJan] : List Record) ≠ [] ∧ (derive [recJan] none).channelArr.length = 3 :=
  ⟨by simp, ((claim1_channelArr_three [recJan] none).1 (by simp)).1⟩

/-- C2: derive's top-level totals are the raw sums of revenue, orders and
sessions over all input records, the overall ROAS is totalRevenue divided
by the all-channel spend sum (0 when that sum is 0), and changing the
channel focus never changes the totals or the overall ROAS. -/
theorem claim2_totals_focus_independent (rows : List Record) (cf cf' : Option Channel) :
    (derive rows cf).totalRevenue = sumBy rows (·.revenue) ∧
    (derive rows cf).totalOrders = sumBy rows (·.online_orders) ∧
    (derive rows cf).totalSessions = sumBy rows (·.sessions) ∧
    (derive rows cf).roas =
      (if spendAll rows = 0 then 0 else sumBy rows (·.revenue) / spendAll rows) ∧
    (derive rows cf).totalRevenue = (derive rows cf').totalRevenue ∧
    (derive rows cf).totalOrders = (derive rows cf').totalOrders ∧
    (derive rows cf).totalSessions = (derive rows cf').totalSessions ∧
    (derive rows cf).roas = (derive rows cf').roas := by
  refine ⟨derive_totalRevenue rows cf, derive_totalOrders rows cf,
    derive_totalSessions rows cf, derive_roas rows cf, ?_, ?_, ?_, ?_⟩
  · rw [derive_totalRevenue, derive_totalRevenue]
  · rw [derive_totalOrders, derive_totalOrders]
  · rw [derive_totalSessions, derive_totalSessions]
  · rw [derive_roas, derive_roas]

/-- C3: buildInsights returns none exactly when the input spans fewer than
2 distinct monthly buckets (and therefore a payload whenever it spans 2 or
more); being a total function, it signals the insufficient-data case only
through the none result. -/
theorem claim3_insufficient_data (rows : List Record) (cf : Option Channel) :
    buildInsights rows cf = none ↔
      (firstKeys (fun r => monthKey r.date) rows).length < 2 := by
  cases rows with
  | nil => simp [buildInsights, firstKeys]
  | cons r rs =>
    have hlen := monthlyOf_length (r :: rs) cf
    by_cases h2 : (monthlyOf (r :: rs) cf).length < 2
    · simp [buildInsights, h2, ← hlen]
    · simp [buildInsights, h2, ← hlen]

/-- C3 witness: a concrete one-month input spans a single monthly bucket
and buildInsights returns none on it. -/
theorem claim3_witness :
    (firstKeys (fun r => monthKey r.date) [recJan]).length < 2 ∧
      buildInsights [recJan] none = none :=
  ⟨by norm_num [firstKeys], (claim3_insufficient_data [recJan] none).mpr
    (by norm_num [firstKeys])⟩

/-- The delta convention the specification asserts for any displayed
(current, previous) pair: the relative change when previous is nonzero,
+100 percent when only current is nonzero, and 0 when both are zero. -/
def deltaSpec (d c p : Rat) : Prop :=
  (p ≠ 0 → d = (c - p) / p) ∧ (p = 0 → c ≠ 0 → d = 1) ∧ (p = 0 → c = 0 → d = 0)

theorem deltaCardPct_spec (c p : Rat) : deltaSpec (deltaCardPct c p) c p := by
  unfold deltaSpec deltaCardPct
  refine ⟨?_, ?_, ?_⟩
  · intro h
    rw [if_neg h]
  · intro hp hc
    rw [if_pos hp, if_neg hc]
  · intro hp hc
    rw [if_pos hp, if_pos hc]

/-- C5: each of the eight percentage deltas the insights panel displays
(Revenue, Orders, ROAS, CVR in both the MoM card and the YoY card)
satisfies the uniform delta convention on its own (current, previous)
pair. -/
theorem claim5_delta_convention (p : InsightPayload) :
    deltaSpec (insightsPanelDeltas p).momRevenue p.curr.revenue p.prev.revenue ∧
    deltaSpec (insightsPanelDeltas p).momOrders p.curr.orders p.prev.orders ∧
    deltaSpec (insightsPanelDeltas p).momRoas p.curr.roas p.prev.roas ∧
    deltaSpec (insightsPanelDeltas p).momCvr p.curr.cvr p.prev.cvr ∧
    deltaSpec (insightsPanelDeltas p).yoyRevenue p.curr.revenue p.yoy.revenue ∧
    deltaSpec (insightsPanelDeltas p).yoyOrders p.curr.orders p.yoy.orders ∧
    deltaSpec (insightsPanelDeltas p).yoyRoas p.curr.roas p.yoy.roas ∧
    deltaSpec (insightsPanelDeltas p).yoyCvr p.curr.cvr p.yoy.cvr :=
  ⟨deltaCardPct_spec _ _, deltaCardPct_spec _ _, deltaCardPct_spec _ _,
    deltaCardPct_spec _ _, deltaCardPct_spec _ _, deltaCardPct_spec _ _,
    deltaCardPct_spec _ _, deltaCardPct_spec _ _⟩

/-- Concrete payload exercising the previous-is-zero branch of the delta
convention. -/
def w5payload : InsightPayload :=
  { currMonth := 0, prevMonth := 0, yoyMonth := 0
    curr := { revenue := 5, orders := 0, roas := 0, cvr := 0 }
    prev := { revenue := 0, orders := 0, roas := 0, cvr := 0 }
    yoy := { revenue := 0, orders := 0, roas := 0, cvr := 0 }
    topChannel := Channel.social
    topChannelDelta := 0
    bestMarket := none
    watchMetricChange := 0 }

/-- C5 witness: with previous revenue 0 and current revenue nonzero, the
displayed MoM revenue delta is +100 percent. -/
theorem claim5_witness :
    w5payload.prev.revenue = 0 ∧ w5payload.curr.revenue ≠ 0 ∧
      (insightsPanelDeltas w5payload).momRevenue = 1 :=
  ⟨rfl, by norm_num [w5payload], (claim5_delta_convention w5payload).1.2.1 rfl
    (by norm_num [w5payload])⟩

/-- C8: the revenue fields of derive's byMarket entries sum to the
totalRevenue of the same input: the market grouping partitions the records,
so grouped revenue recomposes to the total. -/
theorem claim8_byMarket_partition (rows : List Record) (cf : Option Channel) :
    ((derive rows cf).byMarket.map (·.revenue)).sum = (derive rows cf).totalRevenue := by
  rw [derive_byMarket, derive_totalRevenue, byMarketOf]
  rw [((List.perm_insertionSort marketGE _).map (·.revenue)).sum_eq]
  rw [List.map_map]
  exact sum_map_groupBy marketKey (·.revenue) rows

/-- Once buildInsights returns a payload, it is the payload built from the
sorted monthly series. -/
theorem buildInsights_eq_payload (rows : List Record) (cf : Option Channel)
    (p : InsightPayload) (hp : buildInsights rows cf = some p) :
    p = payloadOf rows cf := by
  cases rows with
  | nil => simp [buildInsights] at hp
  | cons r rs =>
    by_cases h2 : (monthlyOf (r :: rs) cf).length < 2
    · simp [buildInsights, h2] at hp
    · simp [buildInsights, h2] at hp
      exact hp.symm

/-- C4: whenever buildInsights returns a payload, its YoY month key is
exactly 12 calendar months before the current bucket's key; when no bucket
with that key exists, the payload's yoy values are all zero (not a missing
marker), and when one exists the yoy values are exactly that bucket's
metrics. -/
theorem claim4_yoy_lookup (rows : List Record) (cf : Option Channel) (p : InsightPayload)
    (hp : buildInsights rows cf = some p) :
    p.yoyMonth = p.currMonth - 12 ∧
    ((∀ b ∈ monthlyOf rows cf, b.1 ≠ p.currMonth - 12) →
      p.yoy = { revenue := 0, orders := 0, roas := 0, cvr := 0 }) ∧
    (∀ b ∈ monthlyOf rows cf, b.1 = p.currMonth - 12 →
      p.yoy = { revenue := b.2.revenue, orders := b.2.orders, roas := b.2.roas,
                cvr := b.2.cvr }) := by
  obtain rfl := buildInsights_eq_payload rows cf p hp
  refine ⟨rfl, ?_, ?_⟩
  · intro habs
    have hfind : (monthlyOf rows cf).find?
        (fun m => decide (m.1 = (currOf rows cf).1 - 12)) = none := by
      apply List.find?_eq_none.mpr
      intro x hx
      have hx' := habs x hx
      simp only [payloadOf] at hx'
      simpa using hx'
    simp [payloadOf, yoyOf, hfind, zeroStats]
  · intro b hb hbk
    have hpred : (fun m : Int × MonthStats => decide (m.1 = (currOf rows cf).1 - 12)) b
        = true := by
      simp only [payloadOf] at hbk
      simpa using hbk
    have hsome : ((monthlyOf rows cf).find?
        (fun m => decide (m.1 = (currOf rows cf).1 - 12))).isSome := by
      rw [List.find?_isSome]
      exact ⟨b, hb, hpred⟩
    rcases Option.isSome_iff_exists.mp hsome with ⟨b', hb'⟩
    have hb'mem := List.mem_of_find?_eq_some hb'
    have hb'pred := List.find?_some hb'
    have hbb : b' = b := by
      apply monthlyOf_key_inj rows cf b' b hb'mem hb
      have h1 : b'.1 = (currOf rows cf).1 - 12 := by simpa using hb'pred
      have h2 : b.1 = (currOf rows cf).1 - 12 := by simpa using hpred
      rw [h1, h2]
    subst hbb
    simp [payloadOf, yoyOf, hb']

/-- C6: derive's byDate groups records by exact date value; each entry's
revenue and orders are the per-date sums, its ROAS is that revenue divided
by the focus-selected per-date spend (0 when that spend is 0), the
entries' dates are exactly the distinct dates present in the input, and
the sequence is sorted ascending by date. -/
theorem claim6_byDate_grouping (rows : List Record) (cf : Option Channel) :
    (∀ e ∈ (derive rows cf).byDate,
      e.revenue = sumBy (rows.filter (fun r => decide (r.date = e.date))) (·.revenue) ∧
      e.orders = sumBy (rows.filter (fun r => decide (r.date = e.date))) (·.online_orders) ∧
      e.roas = (if dateSpend cf (rows.filter (fun r => decide (r.date = e.date))) = 0 then 0
        else e.revenue / dateSpend cf (rows.filter (fun r => decide (r.date = e.date))))) ∧
    (∀ d : Date, (∃ e ∈ (derive rows cf).byDate, e.date = d) ↔ ∃ r ∈ rows, r.date = d) ∧
    List.Sorted dleEntry (derive rows cf).byDate := by
  rw [derive_byDate]
  refine ⟨?_, ?_, ?_⟩
  · intro e he
    rcases mem_byDateOf rows cf e he with ⟨k, hk, rfl⟩
    exact ⟨rfl, rfl, rfl⟩
  · intro d
    constructor
    · rintro ⟨e, he, rfl⟩
      rcases mem_byDateOf rows cf e he with ⟨k, hk, rfl⟩
      exact (mem_firstKeys (fun r => r.date) rows k).mp hk
    · rintro ⟨r, hr, rfl⟩
      exact ⟨mkDateEntry cf (r.date, rows.filter (fun x => decide (x.date = r.date))),
        byDateOf_mem_of_key rows cf r.date
          ((mem_firstKeys (fun x => x.date) rows r.date).mpr ⟨r, hr, rfl⟩), rfl⟩
  · exact List.sorted_insertionSort dleEntry _

/-- The boolean filter condition of rowsFiltered, characterised as the
conjunction of the inclusive optional date bounds and the market match. -/
theorem filterPred_iff (s e : Option Date) (m : String) (r : Record) :
    (((match s with
        | none => true
        | some sd => decide (dle sd r.date)) &&
      (match e with
        | none => true
        | some ed => decide (dle r.date ed)) &&
      (if m = "All" then true else decide (marketKey r = m))) = true) ↔
      ((∀ sd, s = some sd → dle sd r.date) ∧ (∀ ed, e = some ed → dle r.date ed) ∧
        (m ≠ "All" → marketKey r = m)) := by
  cases s <;> cases e <;> by_cases hm : m = "All" <;> simp [hm, and_assoc]

/-- C7: rowsFiltered returns exactly the records meeting the inclusive
optional date bounds and the exact market-key match (no restriction under
the sentinel "All"), as a sublist of the input, hence in the input's
original order. The filter takes no channel input at all, so the channel
selection cannot affect which records are included. -/
theorem claim7_filter_semantics (rows : List Record) (s e : Option Date) (m : String)
    (r : Record) :
    (r ∈ rowsFiltered rows s e m ↔
      (r ∈ rows ∧ (∀ sd, s = some sd → dle sd r.date) ∧
        (∀ ed, e = some ed → dle r.date ed) ∧ (m ≠ "All" → marketKey r = m))) ∧
    (rowsFiltered rows s e m).Sublist rows := by
  constructor
  · constructor
    · intro h
      have h' := List.mem_filter.mp h
      exact ⟨h'.1, (filterPred_iff s e m r).mp h'.2⟩
    · rintro ⟨hmem, h1, h2, h3⟩
      exact List.mem_filter.mpr ⟨hmem, (filterPred_iff s e m r).mpr ⟨h1, h2, h3⟩⟩
  · exact List.filter_sublist _

/-- Per-date guard: a byDate entry built from a group whose focus-selected
spend is 0 has ROAS 0. -/
theorem mkDateEntry_guard (cf : Option Channel) (g : Date × List Record)
    (h : dateSpend cf g.2 = 0) : (mkDateEntry cf g).roas = 0 := by
  simp [mkDateEntry, h]

/-- C9: every ratio metric of the core yields exactly 0 when its
denominator is 0 — AOV, CVR and ROAS at the totals level, CPC, CTR and
ROAS per channel, ROAS per date, ROAS and CVR per market, and CVR and ROAS
per monthly bucket. All modelled functions are total, so no well-formed
input yields an undefined value. -/
theorem claim9_zero_denominator (rows : List Record) (cf : Option Channel) :
    ((derive rows cf).totalSessions = 0 → (derive rows cf).cvr = 0) ∧
    ((derive rows cf).totalOrders = 0 → (derive rows cf).aov = 0) ∧
    (spendAll rows = 0 → (derive rows cf).roas = 0) ∧
    (∀ e ∈ (derive rows cf).channelArr,
      (e.clicks = 0 → e.cpc = 0) ∧ (e.impressions = 0 → e.ctr = 0) ∧
        (e.spend = 0 → e.roas = 0)) ∧
    (∀ e ∈ (derive rows cf).byDate,
      dateSpend cf (rows.filter (fun r => decide (r.date = e.date))) = 0 → e.roas = 0) ∧
    (∀ e ∈ (derive rows cf).byMarket,
      (e.spend = 0 → e.roas = 0) ∧ (e.sessions = 0 → e.cvr = 0)) ∧
    (∀ b ∈ monthlyOf rows cf,
      (b.2.sessions = 0 → b.2.cvr = 0) ∧ (b.2.spend = 0 → b.2.roas = 0)) := by
  refine ⟨?_, ?_, ?_, ?_, ?_, ?_, ?_⟩
  · intro h
    rw [derive_totalSessions] at h
    rw [derive_cvr, if_pos h]
  · intro h
    rw [derive_totalOrders] at h
    rw [derive_aov, if_pos h]
  · intro h
    rw [derive_roas, if_pos h]
  · intro e he
    cases rows with
    | nil =>
      rw [derive_channelArr_nil] at he
      cases he
    | cons r rs =>
      rw [derive_channelArr_of_ne _ cf (by simp)] at he
      simp only [channelArrOf, List.mem_cons, List.not_mem_nil, or_false] at he
      rcases he with rfl | rfl | rfl
      · exact mkChannelEntry_guards _ _ _ _ _
      · exact mkChannelEntry_guards _ _ _ _ _
      · exact mkChannelEntry_guards _ _ _ _ _
  · intro e he
    rw [derive_byDate] at he
    rcases mem_byDateOf rows cf e he with ⟨k, hk, rfl⟩
    intro h
    exact mkDateEntry_guard cf _ h
  · intro e he
    rw [derive_byMarket] at he
    rcases mem_byMarketOf rows cf e he with ⟨k, hk, rfl⟩
    exact mkMarketEntry_guards cf _
  · intro b hb
    rcases mem_monthlyOf rows cf b hb with ⟨k, hk, rfl⟩
    exact statsOf_guards cf _

/-- C10: the watchMetric narrative divides the CVR difference by
(previous CVR or 1) instead of using the uniform delta convention: with at
least two monthly buckets, a zero previous CVR and a nonzero current CVR,
the reported change equals the current CVR value itself, which differs
from the +100 percent the DeltaCard convention would report whenever the
current CVR is not 1. -/
theorem claim10_watch_metric (rows : List Record) (cf : Option Channel)
    (p : InsightPayload) (hp : buildInsights rows cf = some p)
    (hprev : p.prev.cvr = 0) (hcurr : p.curr.cvr ≠ 0) :
    p.watchMetricChange = p.curr.cvr ∧
    (p.curr.cvr ≠ 1 → p.watchMetricChange ≠ deltaCardPct p.curr.cvr p.prev.cvr) := by
  obtain rfl := buildInsights_eq_payload rows cf p hp
  simp only [payloadOf] at hprev hcurr ⊢
  have hwatch : ((currOf rows cf).2.cvr - (prevOf rows cf).2.cvr) /
      (if (prevOf rows cf).2.cvr = 0 then 1 else (prevOf rows cf).2.cvr) =
      (currOf rows cf).2.cvr := by
    rw [hprev]
    simp
  refine ⟨hwatch, ?_⟩
  intro hne
  rw [hwatch]
  have hd : deltaCardPct (currOf rows cf).2.cvr (prevOf rows cf).2.cvr = 1 := by
    simp [deltaCardPct, hprev, hcurr]
  rw [hd]
  exact hne

/-- The payload buildInsights produces on the two-month sample input; the
year-ago bucket (month key 24277) is absent, so the yoy values are zero. -/
def w4payload : InsightPayload :=
  { currMonth := 24289
    prevMonth := 24288
    yoyMonth := 24277
    curr := { revenue := 1500, orders := 25, roas := 10, cvr := 1 / 24 }
    prev := { revenue := 1000, orders := 20, roas := 10, cvr := 1 / 25 }
    yoy := { revenue := 0, orders := 0, roas := 0, cvr := 0 }
    topChannel := Channel.social
    topChannelDelta := 0
    bestMarket := some ("Austin, TX", 1 / 2)
    watchMetricChange := 1 / 24 }

/-- C4 witness: on the concrete two-month input no year-ago bucket exists
and the theorem yields the all-zero yoy values. -/
theorem claim4_witness :
    buildInsights [recJan, recFeb] none = some w4payload ∧
      w4payload.yoy = { revenue := 0, orders := 0, roas := 0, cvr := 0 } := by
  have hb : buildInsights [recJan, recFeb] none = some w4payload := by
    norm_num [buildInsights, payloadOf, currOf, prevOf, yoyOf, monthlyOf, groupBy,
      firstKeys, statsOf, dateSpend, channelSpendOf, sumBy, monthKey, keyLE, topRoasOf,
      chanDeltaOf, chanSeriesOf, chanStatsOf, bestMarketOf, marketGrowthOf, marketSeriesOf,
      marketKey, zeroStats, zeroChan, recJan, recFeb, mkRec, w4payload]
    decide
  have habs : ∀ b ∈ monthlyOf [recJan, recFeb] none, b.1 ≠ w4payload.currMonth - 12 := by
    norm_num [monthlyOf, groupBy, firstKeys, statsOf, dateSpend, channelSpendOf, sumBy,
      monthKey, keyLE, recJan, recFeb, mkRec, w4payload]
  exact ⟨hb, (claim4_yoy_lookup [recJan, recFeb] none w4payload hb).2.1 habs⟩

/-- The first byDate entry of derive on the two-month sample input. -/
def w6entry : DateEntry :=
  { date := ⟨2024, 0, 1⟩, revenue := 1000, roas := 10, orders := 20 }

/-- C6 witness: a concrete byDate entry whose revenue the theorem equates
with the per-date revenue sum of its group. -/
theorem claim6_witness :
    w6entry ∈ (derive [recJan, recFeb] none).byDate ∧
      w6entry.revenue =
        sumBy ([recJan, recFeb].filter (fun r => decide (r.date = w6entry.date)))
          (·.revenue) := by
  have hmem : w6entry ∈ (derive [recJan, recFeb] none).byDate := by
    norm_num [derive, byDateOf, groupBy, firstKeys, mkDateEntry, dateSpend,
      channelSpendOf, sumBy, dleEntry, dle, recJan, recFeb, mkRec, w6entry]
  exact ⟨hmem, ((claim6_byDate_grouping [recJan, recFeb] none).1 w6entry hmem).1⟩

/-- A second-market sample record used by the filter witness. -/
def recDallas : Record :=
  mkRec ⟨2024, 0, 6⟩ "Dallas" "TX" 10 1 100 0 0 0

/-- C7 witness: on a two-market input with both date bounds set, the Austin
record passes the filter for market "Austin, TX". -/
theorem claim7_witness :
    recJan ∈ rowsFiltered [recJan, recDallas] (some ⟨2024, 0, 1⟩) (some ⟨2024, 1, 1⟩)
      "Austin, TX" :=
  (claim7_filter_semantics [recJan, recDallas] (some ⟨2024, 0, 1⟩) (some ⟨2024, 1, 1⟩)
      "Austin, TX" recJan).1.mpr
    ⟨List.mem_cons_self _ _,
      fun sd hsd => by cases hsd; decide,
      fun ed hed => by cases hed; decide,
      fun _ => by decide⟩

/-- A record with zero sessions, orders and spend, used by the
zero-denominator witness. -/
def w9row : Record :=
  mkRec ⟨2024, 0, 1⟩ "Austin" "TX" 0 0 1000 0 0 0

/-- C9 witness: with zero total sessions, orders and spend, the theorem
yields CVR = 0, AOV = 0 and ROAS = 0 on a concrete input. -/
theorem claim9_witness :
    (derive [w9row] none).totalSessions = 0 ∧ (derive [w9row] none).cvr = 0 ∧
    (derive [w9row] none).totalOrders = 0 ∧ (derive [w9row] none).aov = 0 ∧
    spendAll [w9row] = 0 ∧ (derive [w9row] none).roas = 0 := by
  have h1 : (derive [w9row] none).totalSessions = 0 := by
    norm_num [derive, sumBy, spendAll, w9row, mkRec]
  have h2 : (derive [w9row] none).totalOrders = 0 := by
    norm_num [derive, sumBy, spendAll, w9row, mkRec]
  have h3 : spendAll [w9row] = 0 := by
    norm_num [spendAll, sumBy, w9row, mkRec]
  exact ⟨h1, (claim9_zero_denominator [w9row] none).1 h1, h2,
    (claim9_zero_denominator [w9row] none).2.1 h2, h3,
    (claim9_zero_denominator [w9row] none).2.2.1 h3⟩

/-- January sample with sessions but no orders: its month has CVR 0. -/
def w10rJan : Record :=
  mkRec ⟨2024, 0, 1⟩ "Austin" "TX" 100 0 0 0 0 0

/-- February sample with 4 orders out of 100 sessions: CVR 1/25. -/
def w10rFeb : Record :=
  mkRec ⟨2024, 1, 1⟩ "Austin" "TX" 100 4 0 0 0 0

/-- The payload buildInsights produces on the zero-then-nonzero CVR input. -/
def w10payload : InsightPayload :=
  { currMonth := 24289
    prevMonth := 24288
    yoyMonth := 24277
    curr := { revenue := 0, orders := 4, roas := 0, cvr := 1 / 25 }
    prev := { revenue := 0, orders := 0, roas := 0, cvr := 0 }
    yoy := { revenue := 0, orders := 0, roas := 0, cvr := 0 }
    topChannel := Channel.social
    topChannelDelta := 0
    bestMarket := some ("Austin, TX", 0)
    watchMetricChange := 1 / 25 }

/-- C10 witness: on a concrete input whose previous month has CVR 0 and
whose current month has CVR 1/25, the watchMetric change equals the
current CVR itself (4 percent, not the +100 percent of the delta
convention). -/
theorem claim10_witness :
    buildInsights [w10rJan, w10rFeb] none = some w10payload ∧
      w10payload.prev.cvr = 0 ∧ w10payload.curr.cvr ≠ 0 ∧
      w10payload.watchMetricChange = w10payload.curr.cvr := by
  have hb : buildInsights [w10rJan, w10rFeb] none = some w10payload := by
    norm_num [buildInsights, payloadOf, currOf, prevOf, yoyOf, monthlyOf, groupBy,
      firstKeys, statsOf, dateSpend, channelSpendOf, sumBy, monthKey, keyLE, topRoasOf,
      chanDeltaOf, chanSeriesOf, chanStatsOf, bestMarketOf, marketGrowthOf, marketSeriesOf,
      marketKey, zeroStats, zeroChan, w10rJan, w10rFeb, mkRec, w10payload]
    decide
  have hprev : w10payload.prev.cvr = 0 := rfl
  have hcurr : w10payload.curr.cvr ≠ 0 := by norm_num [w10payload]
  exact ⟨hb, hprev, hcurr,
    (claim10_watch_metric [w10rJan, w10rFeb] none w10payload hb hprev hcurr).1⟩

end BurritoShack
